import Mathlib

/-!
Verification of the flint `.rst` documentation extractor
(`flint_pxd_autogen/autogen.py`).  The extractor is a line-oriented state
machine that recognizes `.. function::` / `.. macro::` / `.. type::`
declaration blocks, multi-line signature continuations, attached
documentation bodies and section boundaries, and emits a section-keyed
result of (signatures, documentation) pairs.

Strings are shallowly embedded as `List Char`; Python `str.replace`,
`str.strip`, `str.startswith`, `str.splitlines`, indexing and slicing are
given explicit executable counterparts.  Fallible Python code (raise
ValueError / RuntimeError / IndexError) is embedded in `Except PyError`.
Console warnings (`print('Warning: ...')`) are accumulated in an explicit
warning list.
-/

namespace FlintAutogen

abbrev Chars := List Char

/-- Python whitespace as relevant to `str.strip` on the documentation lines. -/
def isPySpace (c : Char) : Bool :=
  c = ' ' || c = '\t' || c = '\n' || c = '\r' || c = '\x0b' || c = '\x0c'

/-- Python `s.strip()`: drop whitespace from both ends. -/
def strip (s : Chars) : Chars :=
  ((s.dropWhile isPySpace).reverse.dropWhile isPySpace).reverse

/-- Python `pat in s` (substring containment). -/
def containsSub (s pat : Chars) : Bool :=
  match s with
  | [] => pat.isEmpty
  | _ :: rest => pat.isPrefixOf s || containsSub rest pat

/-- Fueled worker for Python `s.replace(pat, rep)`: replace every
non-overlapping occurrence of `pat`, scanning left to right.  The fuel is
an upper bound on the number of characters consumed; `replaceAll` always
supplies enough. -/
def replaceAllF : Nat → Chars → Chars → Chars → Chars
  | 0, s, _, _ => s
  | fuel + 1, s, pat, rep =>
    match s with
    | [] => []
    | c :: rest =>
      if pat.isPrefixOf (c :: rest) then
        rep ++ replaceAllF fuel ((c :: rest).drop pat.length) pat rep
      else
        c :: replaceAllF fuel rest pat rep

/-- Python `s.replace(pat, rep)` for a non-empty pattern (an empty pattern
never occurs in the extractor). -/
def replaceAll (s pat rep : Chars) : Chars :=
  if pat.isEmpty then s else replaceAllF s.length s pat rep

/-- Python `text.splitlines()` for newline-separated text (the extractor's
inputs use `\n` only): a trailing newline produces no trailing empty line. -/
def splitLinesGo : Chars → Chars → List Chars
  | [], acc => [acc.reverse]
  | '\n' :: rest, acc =>
    acc.reverse :: (match rest with
      | [] => []
      | _ :: _ => splitLinesGo rest [])
  | c :: rest, acc => splitLinesGo rest (c :: acc)

def splitLines (s : Chars) : List Chars :=
  match s with
  | [] => []
  | _ :: _ => splitLinesGo s []

/-- A finalized declaration: (signature fragments, documentation lines),
mirroring the pairs appended to `self.functions`. -/
abbrev Func := List Chars × List Chars

/-- `self.content`: insertion-ordered mapping from section name
(`none` = the no-section sentinel) to the declarations flushed under it. -/
abbrev Content := List (Option Chars × List Func)

def contentFind : Content → Option Chars → Option (List Func)
  | [], _ => none
  | (k, v) :: rest, key => if k = key then some v else contentFind rest key

/-- `update_section`'s dictionary operation:
`if section not in content: content[section] = []` then
`content[section] += functions`. -/
def contentAdd (c : Content) (key : Option Chars) (fns : List Func) : Content :=
  if (contentFind c key).isSome then
    c.map (fun p => if p.1 = key then (p.1, p.2 ++ fns) else p)
  else
    c ++ [(key, fns)]

/-- The console warnings the extractor can print. -/
inductive Warning
  | vaList (sig : Chars)            -- print('Warning: va_list unsupported ...')
  | noSpaceFunction (line : Chars)  -- print('Warning: no space ...')
  | noSpaceMacro (line : Chars)     -- print('Warning no space...')
deriving DecidableEq, Repr

/-- The exceptions the extractor can raise. -/
inductive PyError
  | indexError                      -- line[13] / line[10] out of range
  | stateDesync (state i : Nat)     -- RuntimeError at the top of process_line
  | missingParen (sig : Chars)      -- RuntimeError(func_signature) in add_function
  | badLine (line : Chars)          -- ValueError(line) in a continuation state
  | badFilename                     -- ValueError in __init__
  | fuelExhausted                   -- never produced by a completed run
deriving DecidableEq, Repr

-- State flag constants of the Extractor class.
def NONE : Nat := 0
def DOC : Nat := 1
def FUNCTION_DECLARATION : Nat := 2
def MACRO_DECLARATION : Nat := 4
def TYPE_DECLARATION : Nat := 8

/-- The mutable attributes of the `Extractor` object.  The source's
`self.section` is called `sectionName` here (`section` is a Lean keyword). -/
structure Extractor where
  state : Nat
  sectionName : Option Chars
  content : Content
  functions : List Func
  signatures : List Chars
  doc : List Chars
  lines : List Chars
  i : Nat
  warnings : List Warning
deriving DecidableEq, Repr

/-- `Extractor.update_section`. -/
def update_section (e : Extractor) : Extractor :=
  { e with content := contentAdd e.content e.sectionName e.functions,
           functions := [] }

/-- The per-line substitution of `Extractor.clean_doc`. -/
def chooseFix (line : Chars) : Chars :=
  replaceAll line "\\choose ".data "choose ".data

/-- `Extractor.clean_doc`: drop empty lines from the end of the
documentation, then apply the markup cleanup to every line. -/
def clean_doc (doc : List Chars) : List Chars :=
  ((doc.reverse.dropWhile List.isEmpty).reverse).map chooseFix

/-- The `replacement` list of `clean_signatures`. -/
def typeReplacements : List (Chars × Chars) :=
  [("(void)".data, "()".data), (" enum ".data, " ".data)]

/-- The `bad_arg_names` list of `clean_signatures`. -/
def bad_arg_names : List (Chars × Chars) :=
  [("in".data, "input".data), ("lambda".data, "lmbda".data), ("iter".data, "it".data)]

/-- The `replacements` comprehension of `clean_signatures`: each reserved
name wrapped in the four token contexts (space/star before, comma/paren
after), outer loop over contexts, inner loop over names. -/
def argReplacements : List (Chars × Chars) :=
  ([(' ', ','), (' ', ')'), ('*', ','), ('*', ')')] : List (Char × Char)).flatMap
    (fun pq => bad_arg_names.map
      (fun bg => (pq.1 :: bg.1 ++ [pq.2], pq.1 :: bg.2 ++ [pq.2])))

def foldReplace (l : List (Chars × Chars)) (s : Chars) : Chars :=
  l.foldl (fun acc pr => replaceAll acc pr.1 pr.2) s

/-- The per-signature body of `Extractor.clean_signatures`. -/
def cleanSignature (s : Chars) : Chars :=
  foldReplace argReplacements (foldReplace typeReplacements s)

/-- `Extractor.clean_signatures`: applied to every pending signature when
the state carries the function or macro flag. -/
def clean_signatures (state : Nat) (sigs : List Chars) : List Chars :=
  if state &&& FUNCTION_DECLARATION ≠ 0 || state &&& MACRO_DECLARATION ≠ 0 then
    sigs.map cleanSignature
  else sigs

/-- The variadic-argument marker searched for by `add_function`. -/
def vaMarker : Chars := "va_list ".data

/-- The signature loop of `Extractor.add_function`: raise on a signature
without a parenthesis pair, drop (with a warning) a signature containing
the `va_list ` marker, keep the rest. -/
def filterSigs : List Chars → Except PyError (List Chars × List Warning)
  | [] => .ok ([], [])
  | s :: rest =>
    if !(containsSub s ['(']) || !(containsSub s [')']) then
      .error (.missingParen s)
    else if containsSub s vaMarker then
      match filterSigs rest with
      | .error err => .error err
      | .ok (sigs, ws) => .ok (sigs, .vaList s :: ws)
    else
      match filterSigs rest with
      | .error err => .error err
      | .ok (sigs, ws) => .ok (s :: sigs, ws)

/-- `Extractor.add_function`. -/
def add_function (e : Extractor) : Except PyError Extractor :=
  match filterSigs e.signatures with
  | .error err => .error err
  | .ok (sigs, ws) =>
    let sigs2 := clean_signatures e.state sigs
    .ok { e with doc := clean_doc e.doc,
                 signatures := sigs2,
                 warnings := e.warnings ++ ws,
                 functions := e.functions ++ [(sigs2, clean_doc e.doc)] }

/-- `Extractor.add_declaration`: dispatch on the primary state flag
(`add_macro` and `add_type` are no-ops in the source), then clear the
pending signatures and documentation and reset the state. -/
def add_declaration (e : Extractor) : Except PyError Extractor :=
  match (if e.state &&& FUNCTION_DECLARATION ≠ 0 then add_function e else .ok e) with
  | .error err => .error err
  | .ok e1 => .ok { e1 with signatures := [], doc := [], state := NONE }

def fnMarker : Chars :=
  ['.', '.', ' ', 'f', 'u', 'n', 'c', 't', 'i', 'o', 'n', ':', ':']
def macroMarker : Chars := ['.', '.', ' ', 'm', 'a', 'c', 'r', 'o', ':', ':']
def typeMarker : Chars := ['.', '.', ' ', 't', 'y', 'p', 'e', ':', ':']
def spaces14 : Chars :=
  [' ', ' ', ' ', ' ', ' ', ' ', ' ', ' ', ' ', ' ', ' ', ' ', ' ', ' ']
def spaces10 : Chars := [' ', ' ', ' ', ' ', ' ', ' ', ' ', ' ', ' ', ' ']
def docIndent : Chars := [' ', ' ', ' ', ' ']
def dashes4 : Chars := ['-', '-', '-', '-']

/-- `bool(state & F) + bool(state & M) + bool(state & T)`. -/
def primaryCount (s : Nat) : Nat :=
  (if s &&& FUNCTION_DECLARATION ≠ 0 then 1 else 0) +
  (if s &&& MACRO_DECLARATION ≠ 0 then 1 else 0) +
  (if s &&& TYPE_DECLARATION ≠ 0 then 1 else 0)

/-- Wrap a stripped fragment the way the source appends it:
only when non-empty. -/
def sigFragment (l : Chars) : List Chars := if l = [] then [] else [l]

/-- The current line, `self.lines[self.i]` (total because its uses are
guarded by the bounds check at the top of `process_line`). -/
def curLine (e : Extractor) : Chars := e.lines.getD e.i []

/-- The `.. function::` branch of `process_line`. -/
def processFn (e : Extractor) : Except PyError (Extractor × Bool) :=
  match add_declaration e with
  | .error err => .error err
  | .ok e1 =>
    match (curLine e).get? 13 with
    | none => .error .indexError
    | some c =>
      .ok ({ (if c = ' ' then e1
              else { e1 with warnings := e1.warnings ++ [.noSpaceFunction (curLine e)] })
             with signatures := e1.signatures ++ [strip ((curLine e).drop 13)],
                  state := FUNCTION_DECLARATION, i := e.i + 1 }, true)

/-- The `.. macro::` branch of `process_line`. -/
def processMacro (e : Extractor) : Except PyError (Extractor × Bool) :=
  match add_declaration e with
  | .error err => .error err
  | .ok e1 =>
    match (curLine e).get? 10 with
    | none => .error .indexError
    | some c =>
      .ok ({ (if c = ' ' then e1
              else { e1 with warnings := e1.warnings ++ [.noSpaceMacro (curLine e)] })
             with signatures := e1.signatures ++ [strip ((curLine e).drop 10)],
                  state := MACRO_DECLARATION, i := e.i + 1 }, true)

/-- The `.. type::` branch of `process_line`. -/
def processType (e : Extractor) : Except PyError (Extractor × Bool) :=
  match add_declaration e with
  | .error err => .error err
  | .ok e1 => .ok ({ e1 with state := TYPE_DECLARATION, i := e.i + 1 }, true)

/-- The `state == FUNCTION_DECLARATION` branch of `process_line`. -/
def processFnCont (e : Extractor) : Except PyError (Extractor × Bool) :=
  if 14 < (curLine e).length ∧ spaces14.isPrefixOf (curLine e) then
    .ok ({ e with signatures := e.signatures ++ sigFragment (strip ((curLine e).drop 14)),
                  i := e.i + 1 }, true)
  else if strip (curLine e) = [] then
    .ok ({ e with state := e.state ||| DOC, i := e.i + 1 }, true)
  else .error (.badLine (curLine e))

/-- The `state == MACRO_DECLARATION` branch of `process_line`. -/
def processMacroCont (e : Extractor) : Except PyError (Extractor × Bool) :=
  if 10 < (curLine e).length ∧ spaces10.isPrefixOf (curLine e) then
    .ok ({ e with signatures := e.signatures ++ sigFragment (strip ((curLine e).drop 10)),
                  i := e.i + 1 }, true)
  else if strip (curLine e) = [] then
    .ok ({ e with state := e.state ||| DOC, i := e.i + 1 }, true)
  else .error (.badLine (curLine e))

/-- The section-boundary branch of `process_line`. -/
def processSection (e : Extractor) : Except PyError (Extractor × Bool) :=
  match add_declaration e with
  | .error err => .error err
  | .ok e1 =>
    -- the source's `section = line` binds a local variable only:
    -- the extractor's own section attribute is left unchanged
    .ok ({ (if e1.functions = [] then e1 else update_section e1)
           with i := e.i + 2 }, true)

/-- The final (forced finalization) branch of `process_line`. -/
def processFallback (e : Extractor) : Except PyError (Extractor × Bool) :=
  match add_declaration e with
  | .error err => .error err
  | .ok e1 => .ok ({ e1 with i := e.i + 1 }, true)

/-- `Extractor.process_line`: returns the updated extractor and the
continue flag (`1` / `0` in the source), or the raised exception. -/
def process_line (e : Extractor) : Except PyError (Extractor × Bool) :=
  if e.lines.length ≤ e.i then .ok (e, false)
  else if 1 < primaryCount e.state then .error (.stateDesync e.state e.i)
  else if fnMarker.isPrefixOf (curLine e) then processFn e
  else if macroMarker.isPrefixOf (curLine e) then processMacro e
  else if typeMarker.isPrefixOf (curLine e) then processType e
  else if e.state = FUNCTION_DECLARATION then processFnCont e
  else if e.state = MACRO_DECLARATION then processMacroCont e
  else if e.state &&& DOC ≠ 0 ∧ docIndent.isPrefixOf (curLine e) then
    .ok ({ e with doc := e.doc ++ sigFragment (strip (curLine e)), i := e.i + 1 }, true)
  else if e.i + 1 < e.lines.length ∧ dashes4.isPrefixOf (e.lines.getD (e.i + 1) []) then
    processSection e
  else if curLine e = [] then .ok ({ e with i := e.i + 1 }, true)
  else processFallback e

/-- The `while self.process_line(): pass` loop, fueled.  Every continuing
step advances `i` by at least one, so fuel `lines.length + 1` is always
sufficient from the initial state; `fuelExhausted` is never produced by a
run that the source would complete. -/
def runLoop : Nat → Extractor → Except PyError Extractor
  | 0, _ => .error .fuelExhausted
  | fuel + 1, e =>
    match process_line e with
    | .error err => .error err
    | .ok (e', false) => .ok e'
    | .ok (e', true) => runLoop fuel e'

/-- The tail of `Extractor.run` after the loop: finalize a still-open
function declaration (`add_macro` is a no-op), flush pending functions,
reset the state. -/
def runFinish (e : Extractor) : Except PyError Extractor :=
  match (if e.state &&& FUNCTION_DECLARATION ≠ 0 then add_function e else .ok e) with
  | .error err => .error err
  | .ok e1 =>
    let e2 := if e1.functions = [] then e1 else update_section e1
    .ok { e2 with state := NONE }

/-- The parser attributes set up by `Extractor.__init__`. -/
def initExtractor (lines : List Chars) : Extractor :=
  { state := NONE, sectionName := none, content := [], functions := [],
    signatures := [], doc := [], lines := lines, i := 0, warnings := [] }

/-- `Extractor.run`. -/
def runExtractor (e : Extractor) : Except PyError Extractor :=
  match runLoop (e.lines.length + 1) e with
  | .error err => .error err
  | .ok e' => runFinish e'

/-- The filename validation of `Extractor.__init__`, which precedes the
reading of the file: a name not ending in `.rst` raises ValueError. -/
def extractorInit (filename text : Chars) : Except PyError Extractor :=
  if ".rst".data.isSuffixOf filename then .ok (initExtractor (splitLines text))
  else .error .badFilename

/-- `extract_functions(filename)`: build the extractor, run it, return
`e.content`. -/
def extract_functions (filename text : Chars) : Except PyError Content :=
  match extractorInit filename text with
  | .error err => .error err
  | .ok e =>
    match runExtractor e with
    | .error err => .error err
    | .ok e' => .ok e'.content

/-- The extraction result of a run started on pre-split lines. -/
def extractContent (lines : List Chars) : Except PyError Content :=
  match runExtractor (initExtractor lines) with
  | .error err => .error err
  | .ok e => .ok e.content

/-- The warnings printed by a run started on pre-split lines. -/
def extractWarnings (lines : List Chars) : Except PyError (List Warning) :=
  match runExtractor (initExtractor lines) with
  | .error err => .error err
  | .ok e => .ok e.warnings

/-!
The historical variant of the extractor (`src/autogen.py`) performs the
signature cleanup inside its `add_function` (lines 89-95): a chain of type
cleanups followed by the reserved-name renaming, which there is guarded by
a membership test and accompanied by a console warning citing the
signature before and after the renaming.
-/

/-- The chained type cleanups of the historical `add_function`. -/
def oldTypeClean (s : Chars) : Chars :=
  replaceAll (replaceAll (replaceAll (replaceAll s
    "slong".data "long".data)
    "ulong".data "unsigned long".data)
    "(void)".data "()".data)
    " enum ".data " ".data

/-- The four reserved-name contexts of the historical `add_function`. -/
def oldBadForms : List (Chars × Chars) :=
  [(" in,".data, " input,".data), (" in)".data, " input)".data),
   ("*in,".data, "*input,".data), ("*in)".data, "*input)".data)]

/-- `any(bad in sig for bad in [...])` of the historical `add_function`. -/
def oldHasBad (s : Chars) : Bool := oldBadForms.any (fun pr => containsSub s pr.1)

/-- The chained renaming of the historical `add_function`. -/
def oldRename (s : Chars) : Chars := foldReplace oldBadForms s

/-- The historical variant's console warning. -/
inductive OldWarning
  | invalidName (old new : Chars)  -- print('Warning: invalid python variable name ...')
deriving DecidableEq, Repr

/-- One signature's pass through the historical `add_function` cleanup:
type cleanups, then, if a reserved-name form is present, the renaming
together with a warning citing the text before and after. -/
def oldProcessSig (s : Chars) : Chars × List OldWarning :=
  let s1 := oldTypeClean s
  if oldHasBad s1 then (oldRename s1, [.invalidName s1 (oldRename s1)]) else (s1, [])

/-- Iterate `process_line` at most `n` times from a given extractor,
stopping early when the source loop would stop. -/
def iterN : Nat → Extractor → Except PyError Extractor
  | 0, e => .ok e
  | n + 1, e =>
    match process_line e with
    | .error err => .error err
    | .ok (e', false) => .ok e'
    | .ok (e', true) => iterN n e'

/-- The extractor states reachable from `Extractor.__init__` on the given
input by processing lines. -/
def Reachable (lines : List Chars) (e : Extractor) : Prop :=
  ∃ n, iterN n (initExtractor lines) = .ok e

/-- The state values that can actually occur during a run. -/
def stateOK (s : Nat) : Prop :=
  s = 0 ∨ s = 2 ∨ s = 3 ∨ s = 4 ∨ s = 5 ∨ s = 8

/-! ### Concrete inputs and claim formalizations -/

def c1text : Chars :=
  ".. function:: int foo(int in)\n\n    Returns something.\n\nBar\n---\n\n.. macro:: BAZ(x)\n".data

def c1lines : List Chars := splitLines c1text

/-- The claim of C1 evaluated on its input: the no-section entry holds the
one normalized declaration, and a section named `Bar` is present with zero
declarations. -/
def c1ClaimHolds : Bool :=
  match extractContent c1lines with
  | .ok c =>
      (contentFind c none
        == some [(["int foo(int input)".data], ["Returns something.".data])])
      && (contentFind c (some "Bar".data) == some [])
  | .error _ => false

def c2lines : List Chars :=
  ["Sec".data, "----".data, [], ".. function:: void f(void)".data]

/-- The claim of C2 evaluated on an input whose first line is underlined
with dashes: a later declaration should then be keyed under the new
section name `Sec`. -/
def c2ClaimHolds : Bool :=
  match runExtractor (initExtractor c2lines) with
  | .ok e => (contentFind e.content (some "Sec".data)).isSome
  | .error _ => false

/-- A mid-run extractor state sitting on a section header line with one
pending finalized declaration. -/
def c2we : Extractor :=
  { state := 0, sectionName := none, content := [],
    functions := [(["void f()".data], [])], signatures := [], doc := [],
    lines := ["Sec".data, "----".data], i := 0, warnings := [] }

def c3lines : List Chars :=
  [".. function:: void f(va_list x)".data, [], "    d".data]

/-- The claim of C3 evaluated on a declaration whose only signature is
variadic: the declaration should then be entirely absent from the result
for its section (and the warning logged). -/
def c3ClaimHolds : Bool :=
  match runExtractor (initExtractor c3lines) with
  | .ok e =>
      ((contentFind e.content none == none)
        || (contentFind e.content none == some []))
      && (e.warnings == [.vaList "void f(va_list x)".data])
  | .error _ => false

/-- An extractor state about to finalize a declaration with one variadic
and one ordinary signature fragment. -/
def c3we : Extractor :=
  { state := 2, sectionName := none, content := [], functions := [],
    signatures := ["void f(va_list x)".data, "int g(int y)".data],
    doc := ["d".data], lines := [], i := 0, warnings := [] }

def c4lines : List Chars := [".. function:: int foo".data]

/-- The extractor state reached at end of input on `c4lines`: an open
function declaration whose signature has no parentheses. -/
def c4we : Extractor :=
  { state := 2, sectionName := none, content := [], functions := [],
    signatures := ["int foo".data], doc := [], lines := c4lines, i := 1,
    warnings := [] }

def c5lines : List Chars := [".. function:: int foo(int in)".data]

/-- The claim of C5 evaluated on a declaration with a reserved parameter
name: if the substitution is performed, a warning must be emitted. -/
def c5ClaimHolds : Bool :=
  match runExtractor (initExtractor c5lines) with
  | .ok e =>
      !(e.content == [(none, [(["int foo(int input)".data], [])])])
        || !(e.warnings == [])
  | .error _ => false

def c8lines : List Chars :=
  [".. function:: void f()".data, [], "    a".data, [], "    b".data]

/-- The claim of C8 evaluated on documentation with an interior blank
line: the finalized documentation should then contain an empty entry. -/
def c8ClaimHolds : Bool :=
  match runExtractor (initExtractor c8lines) with
  | .ok e =>
      match contentFind e.content none with
      | some [(_, doc)] => doc.contains ([] : Chars)
      | _ => false
  | .error _ => false

/-- A mid-run extractor state collecting documentation (`Doc` flag set)
whose current line is an indented documentation line. -/
def c8we : Extractor :=
  { state := 3, sectionName := none, content := [], functions := [],
    signatures := ["void f()".data], doc := ["a".data],
    lines := ["    b".data], i := 0, warnings := [] }

def c9lines : List Chars := [".. function:: void f(x)".data]

/-- The extractor state reached at end of input on `c9lines`: a function
declaration still open in signature accumulation. -/
def c9we : Extractor :=
  { state := 2, sectionName := none, content := [], functions := [],
    signatures := ["void f(x)".data], doc := [], lines := c9lines, i := 1,
    warnings := [] }

/-! ### Basic lemmas about the string primitives -/

theorem containsSub_singleton (s : Chars) (c : Char) :
    containsSub s [c] = true ↔ c ∈ s := by
  induction s with
  | nil => simp [containsSub]
  | cons a rest ih =>
    have hpre : ([c].isPrefixOf (a :: rest)) = (c == a) := by
      simp [List.isPrefixOf]
    simp [containsSub, hpre, ih, List.mem_cons]

theorem replaceAllF_of_not_contains (pat rep : Chars) :
    ∀ (fuel : Nat) (s : Chars), containsSub s pat = false →
      replaceAllF fuel s pat rep = s := by
  intro fuel
  induction fuel with
  | zero => intro s _; rfl
  | succ n ih =>
    intro s h
    cases s with
    | nil => rfl
    | cons c rest =>
      simp only [containsSub, Bool.or_eq_false_iff] at h
      simp only [replaceAllF, h.1, Bool.false_eq_true, if_false]
      rw [ih rest h.2]

theorem replaceAll_of_not_contains (s pat rep : Chars)
    (h : containsSub s pat = false) : replaceAll s pat rep = s := by
  unfold replaceAll
  split
  · rfl
  · exact replaceAllF_of_not_contains pat rep s.length s h

theorem mem_replaceAllF (c : Char) (pat rep : Chars) (hpat : pat ≠ [])
    (himp : c ∈ pat → c ∈ rep) :
    ∀ (fuel : Nat) (s : Chars), s.length ≤ fuel → c ∈ s →
      c ∈ replaceAllF fuel s pat rep := by
  intro fuel
  induction fuel with
  | zero =>
    intro s hlen hmem
    have : s = [] := List.eq_nil_of_length_eq_zero (Nat.le_zero.mp hlen)
    subst this; cases hmem
  | succ n ih =>
    intro s hlen hmem
    cases s with
    | nil => cases hmem
    | cons a rest =>
      by_cases hpre : pat.isPrefixOf (a :: rest)
      · obtain ⟨t, ht⟩ := List.isPrefixOf_iff_prefix.mp hpre
        simp only [replaceAllF, hpre, if_true]
        rw [← ht, List.drop_left]
        rw [← ht] at hmem
        rcases List.mem_append.mp hmem with hm | hm
        · exact List.mem_append_left _ (himp hm)
        · refine List.mem_append_right _ (ih t ?_ hm)
          have hlen2 : (a :: rest).length ≤ n + 1 := hlen
          have hlt : (a :: rest).length = pat.length + t.length := by
            rw [← ht, List.length_append]
          have hppos : 0 < pat.length := List.length_pos.mpr hpat
          omega
      · simp only [replaceAllF, hpre, Bool.false_eq_true, if_false]
        rcases List.mem_cons.mp hmem with hm | hm
        · exact hm ▸ List.mem_cons_self a _
        · refine List.mem_cons_of_mem a (ih rest ?_ hm)
          have hlen2 : rest.length + 1 ≤ n + 1 := hlen
          omega

theorem mem_replaceAll (c : Char) (s pat rep : Chars)
    (himp : c ∈ pat → c ∈ rep) (h : c ∈ s) : c ∈ replaceAll s pat rep := by
  unfold replaceAll
  split
  · exact h
  · next hne =>
    exact mem_replaceAllF c pat rep (by simpa using hne) himp s.length s le_rfl h

theorem mem_foldReplace (c : Char) (l : List (Chars × Chars))
    (himp : ∀ pr ∈ l, c ∈ pr.1 → c ∈ pr.2) :
    ∀ s : Chars, c ∈ s → c ∈ foldReplace l s := by
  induction l with
  | nil => intro s h; exact h
  | cons p rest ih =>
    intro s h
    have h1 : c ∈ replaceAll s p.1 p.2 :=
      mem_replaceAll c s p.1 p.2 (himp p (List.mem_cons_self p rest)) h
    have := ih (fun pr hpr => himp pr (List.mem_cons_of_mem p hpr)) _ h1
    simpa [foldReplace] using this

theorem foldReplace_of_not_contains (l : List (Chars × Chars)) (s : Chars)
    (h : ∀ pr ∈ l, containsSub s pr.1 = false) : foldReplace l s = s := by
  induction l with
  | nil => rfl
  | cons p rest ih =>
    have h1 : replaceAll s p.1 p.2 = s :=
      replaceAll_of_not_contains s p.1 p.2 (h p (List.mem_cons_self p rest))
    have := ih (fun pr hpr => h pr (List.mem_cons_of_mem p hpr))
    simpa [foldReplace, h1] using this

/-- The signature cleanups never create or destroy a parenthesis: for the
open and close parenthesis characters, every replacement pair that mentions
them in its pattern also mentions them in its replacement. -/
theorem mem_cleanSignature_paren (c : Char) (hc : c = '(' ∨ c = ')')
    (s : Chars) (h : c ∈ s) : c ∈ cleanSignature s := by
  unfold cleanSignature
  apply mem_foldReplace
  · rcases hc with h' | h' <;> subst h' <;> decide
  · apply mem_foldReplace
    · rcases hc with h' | h' <;> subst h' <;> decide
    · exact h

theorem containsSub_cleanSignature_paren (c : Char) (hc : c = '(' ∨ c = ')')
    (s : Chars) (h : containsSub (cleanSignature s) [c] = false) :
    containsSub s [c] = false := by
  by_contra hcon
  have : c ∈ s := (containsSub_singleton s c).mp (by
    cases hx : containsSub s [c]
    · exact absurd hx hcon
    · rfl)
  have := mem_cleanSignature_paren c hc s this
  rw [(containsSub_singleton _ c).mpr this] at h
  cases h

/-! ### Lemmas about the finalization helpers -/

theorem filterSigs_ok (l : List Chars)
    (h : ∀ s ∈ l, containsSub s ['('] = true ∧ containsSub s [')'] = true) :
    filterSigs l = .ok (l.filter (fun s => !containsSub s vaMarker),
      (l.filter (fun s => containsSub s vaMarker)).map Warning.vaList) := by
  induction l with
  | nil => rfl
  | cons s rest ih =>
    have hs := h s (List.mem_cons_self s rest)
    have ihr := ih (fun t ht => h t (List.mem_cons_of_mem s ht))
    simp only [filterSigs, hs.1, hs.2, Bool.not_true, Bool.or_self,
      Bool.false_eq_true, if_false]
    by_cases hva : containsSub s vaMarker
    · simp [hva, ihr, List.filter]
    · simp only [Bool.not_eq_true] at hva
      simp [hva, ihr, List.filter]

theorem filterSigs_error (l : List Chars) (s : Chars) (hs : s ∈ l)
    (h : containsSub s ['('] = false ∨ containsSub s [')'] = false) :
    ∃ s', filterSigs l = .error (.missingParen s') := by
  induction l with
  | nil => cases hs
  | cons a rest ih =>
    by_cases ha : (!containsSub a ['(']) || (!containsSub a [')'])
    · exact ⟨a, by simp [filterSigs, ha]⟩
    · rcases List.mem_cons.mp hs with rfl | hmem
      · exfalso
        simp only [Bool.or_eq_true, Bool.not_eq_true'] at ha
        push_neg at ha
        rcases h with h | h
        · exact absurd h (by simpa using ha.1)
        · exact absurd h (by simpa using ha.2)
      · obtain ⟨s', hs'⟩ := ih hmem
        refine ⟨s', ?_⟩
        simp only [Bool.or_eq_true, Bool.not_eq_true'] at ha
        push_neg at ha
        simp only [filterSigs, ha.1, ha.2, Bool.not_true, Bool.or_self,
          Bool.false_eq_true, if_false, hs']
        split <;> simp

theorem filterSigs_error_shape (l : List Chars) (err : PyError)
    (h : filterSigs l = .error err) : ∃ s', err = .missingParen s' := by
  induction l with
  | nil => cases h
  | cons a rest ih =>
    by_cases ha : (!containsSub a ['(']) || (!containsSub a [')'])
    · simp only [filterSigs, ha, if_true] at h
      exact ⟨a, ((Except.error.injEq _ _).mp h).symm⟩
    · simp only [filterSigs, ha, Bool.false_eq_true, if_false] at h
      split at h
      · cases hfs : filterSigs rest with
        | error e' => rw [hfs] at h; cases h; exact ih hfs
        | ok p => rw [hfs] at h; cases h
      · cases hfs : filterSigs rest with
        | error e' => rw [hfs] at h; cases h; exact ih hfs
        | ok p => rw [hfs] at h; cases h

theorem add_function_of_filterSigs (e : Extractor) (sigs : List Chars)
    (ws : List Warning) (h : filterSigs e.signatures = .ok (sigs, ws)) :
    add_function e = .ok { e with
      doc := clean_doc e.doc,
      signatures := clean_signatures e.state sigs,
      warnings := e.warnings ++ ws,
      functions := e.functions ++
        [(clean_signatures e.state sigs, clean_doc e.doc)] } := by
  unfold add_function
  rw [h]

theorem add_function_ok_fields (e e' : Extractor) (h : add_function e = .ok e') :
    e'.state = e.state ∧ e'.sectionName = e.sectionName ∧ e'.lines = e.lines ∧
      e'.i = e.i ∧ e'.content = e.content := by
  unfold add_function at h
  cases hfs : filterSigs e.signatures with
  | error err => rw [hfs] at h; cases h
  | ok p => rw [hfs] at h; cases h; exact ⟨rfl, rfl, rfl, rfl, rfl⟩

theorem add_function_error_shape (e : Extractor) (err : PyError)
    (h : add_function e = .error err) : ∃ s', err = .missingParen s' := by
  unfold add_function at h
  cases hfs : filterSigs e.signatures with
  | error err' => rw [hfs] at h; cases h; exact filterSigs_error_shape _ _ hfs
  | ok p => rw [hfs] at h; cases h

theorem add_declaration_ok_fields (e e1 : Extractor)
    (h : add_declaration e = .ok e1) :
    e1.state = 0 ∧ e1.signatures = [] ∧ e1.doc = [] ∧
      e1.sectionName = e.sectionName ∧ e1.lines = e.lines ∧ e1.i = e.i ∧
      e1.content = e.content := by
  unfold add_declaration at h
  cases hif : (if e.state &&& FUNCTION_DECLARATION ≠ 0 then add_function e
               else Except.ok e) with
  | error err => rw [hif] at h; cases h
  | ok e' =>
    rw [hif] at h
    cases h
    have hfields : e'.sectionName = e.sectionName ∧ e'.lines = e.lines ∧
        e'.i = e.i ∧ e'.content = e.content := by
      split at hif
      · obtain ⟨_, h2, h3, h4, h5⟩ := add_function_ok_fields e e' hif
        exact ⟨h2, h3, h4, h5⟩
      · cases hif; exact ⟨rfl, rfl, rfl, rfl⟩
    exact ⟨rfl, rfl, rfl, hfields.1, hfields.2.1, hfields.2.2.1, hfields.2.2.2⟩

theorem add_declaration_error_shape (e : Extractor) (err : PyError)
    (h : add_declaration e = .error err) : ∃ s', err = .missingParen s' := by
  unfold add_declaration at h
  cases hif : (if e.state &&& FUNCTION_DECLARATION ≠ 0 then add_function e
               else Except.ok e) with
  | error err' =>
    rw [hif] at h
    cases h
    split at hif
    · exact add_function_error_shape _ _ hif
    · cases hif
  | ok e' => rw [hif] at h; cases h

theorem update_section_fields (e : Extractor) :
    (update_section e).state = e.state ∧ (update_section e).doc = e.doc ∧
      (update_section e).sectionName = e.sectionName ∧
      (update_section e).lines = e.lines ∧ (update_section e).i = e.i ∧
      (update_section e).functions = [] ∧
      (update_section e).content = contentAdd e.content e.sectionName e.functions :=
  ⟨rfl, rfl, rfl, rfl, rfl, rfl, rfl⟩

/-! ### Lemmas about the result map -/

theorem contentFind_append_of_none (c c2 : Content) (key : Option Chars)
    (h : contentFind c key = none) :
    contentFind (c ++ c2) key = contentFind c2 key := by
  induction c with
  | nil => rfl
  | cons p rest ih =>
    obtain ⟨k, v⟩ := p
    by_cases hk : k = key
    · simp [contentFind, hk] at h
    · simp only [contentFind, hk, if_false] at h ⊢
      exact ih h

theorem contentFind_map_update (c : Content) (key : Option Chars)
    (fns v : List Func) (h : contentFind c key = some v) :
    contentFind (c.map (fun p => if p.1 = key then (p.1, p.2 ++ fns) else p)) key
      = some (v ++ fns) := by
  induction c with
  | nil => cases h
  | cons p rest ih =>
    obtain ⟨k, w⟩ := p
    by_cases hk : k = key
    · subst hk
      simp only [contentFind, if_pos rfl] at h
      cases h
      simp only [List.map_cons]
      simp [contentFind]
    · simp only [contentFind, if_neg hk] at h
      simp only [List.map_cons]
      have hhd : (if (k, w).1 = key then ((k, w).1, (k, w).2 ++ fns) else (k, w))
          = (k, w) := by simp [hk]
      rw [hhd]
      simp only [contentFind, if_neg hk]
      exact ih h

theorem contentFind_contentAdd (c : Content) (key : Option Chars)
    (fns : List Func) :
    contentFind (contentAdd c key fns) key
      = some ((contentFind c key).getD [] ++ fns) := by
  unfold contentAdd
  cases hf : contentFind c key with
  | none =>
    simp only [hf, Option.isSome_none, Bool.false_eq_true, if_false]
    rw [contentFind_append_of_none c _ key hf]
    simp [contentFind]
  | some v =>
    simp only [hf, Option.isSome_some, if_true]
    rw [contentFind_map_update c key fns v hf]
    rfl

/-! ### Shape of a successful `process_line` step

Whatever branch fires, a successful step never changes the section name or
the line buffer, moves the state within the reachable state set, and only
extends the documentation buffer by a single non-empty entry (or clears or
keeps it). -/

theorem processFn_ok_fields (e e' : Extractor) (b : Bool)
    (h : processFn e = .ok (e', b)) :
    e'.sectionName = e.sectionName ∧ e'.lines = e.lines ∧
      e'.state = 2 ∧ e'.doc = [] := by
  unfold processFn at h
  split at h
  · exact Except.noConfusion h
  · rename_i e1 heq
    split at h
    · exact Except.noConfusion h
    · rename_i c hget
      obtain ⟨hst, hsig, hdoc, hsec, hlin, hi, hcon⟩ :=
        add_declaration_ok_fields e e1 heq
      by_cases hc : c = ' '
      · rw [if_pos hc] at h
        injection h with h1
        injection h1 with h2 h3
        subst h2
        exact ⟨hsec, hlin, rfl, hdoc⟩
      · rw [if_neg hc] at h
        injection h with h1
        injection h1 with h2 h3
        subst h2
        exact ⟨hsec, hlin, rfl, hdoc⟩

theorem processFn_error_shape (e : Extractor) (err : PyError)
    (h : processFn e = .error err) :
    err = .indexError ∨ ∃ s, err = .missingParen s := by
  unfold processFn at h
  split at h
  · rename_i err1 heq
    injection h with h1
    subst h1
    exact Or.inr (add_declaration_error_shape e _ heq)
  · rename_i e1 heq
    split at h
    · injection h with h1
      exact Or.inl h1.symm
    · rename_i c hget
      split at h <;> exact Except.noConfusion h

theorem processMacro_ok_fields (e e' : Extractor) (b : Bool)
    (h : processMacro e = .ok (e', b)) :
    e'.sectionName = e.sectionName ∧ e'.lines = e.lines ∧
      e'.state = 4 ∧ e'.doc = [] := by
  unfold processMacro at h
  split at h
  · exact Except.noConfusion h
  · rename_i e1 heq
    split at h
    · exact Except.noConfusion h
    · rename_i c hget
      obtain ⟨hst, hsig, hdoc, hsec, hlin, hi, hcon⟩ :=
        add_declaration_ok_fields e e1 heq
      by_cases hc : c = ' '
      · rw [if_pos hc] at h
        injection h with h1
        injection h1 with h2 h3
        subst h2
        exact ⟨hsec, hlin, rfl, hdoc⟩
      · rw [if_neg hc] at h
        injection h with h1
        injection h1 with h2 h3
        subst h2
        exact ⟨hsec, hlin, rfl, hdoc⟩

theorem processMacro_error_shape (e : Extractor) (err : PyError)
    (h : processMacro e = .error err) :
    err = .indexError ∨ ∃ s, err = .missingParen s := by
  unfold processMacro at h
  split at h
  · rename_i err1 heq
    injection h with h1
    subst h1
    exact Or.inr (add_declaration_error_shape e _ heq)
  · rename_i e1 heq
    split at h
    · injection h with h1
      exact Or.inl h1.symm
    · rename_i c hget
      split at h <;> exact Except.noConfusion h

theorem processType_ok_fields (e e' : Extractor) (b : Bool)
    (h : processType e = .ok (e', b)) :
    e'.sectionName = e.sectionName ∧ e'.lines = e.lines ∧
      e'.state = 8 ∧ e'.doc = [] := by
  unfold processType at h
  split at h
  · exact Except.noConfusion h
  · rename_i e1 heq
    injection h with h1
    injection h1 with h2 h3
    subst h2
    obtain ⟨hst, hsig, hdoc, hsec, hlin, hi, hcon⟩ :=
      add_declaration_ok_fields e e1 heq
    exact ⟨hsec, hlin, rfl, hdoc⟩

theorem processType_error_shape (e : Extractor) (err : PyError)
    (h : processType e = .error err) : ∃ s, err = .missingParen s := by
  unfold processType at h
  split at h
  · rename_i err1 heq
    injection h with h1
    subst h1
    exact add_declaration_error_shape e _ heq
  · exact Except.noConfusion h

theorem processFnCont_ok_fields (e e' : Extractor) (b : Bool)
    (h : processFnCont e = .ok (e', b)) :
    e'.sectionName = e.sectionName ∧ e'.lines = e.lines ∧
      (e'.state = e.state ∨ e'.state = e.state ||| DOC) ∧ e'.doc = e.doc := by
  unfold processFnCont at h
  split at h
  · injection h with h1
    injection h1 with h2 h3
    subst h2
    exact ⟨rfl, rfl, Or.inl rfl, rfl⟩
  · split at h
    · injection h with h1
      injection h1 with h2 h3
      subst h2
      exact ⟨rfl, rfl, Or.inr rfl, rfl⟩
    · exact Except.noConfusion h

theorem processFnCont_error_shape (e : Extractor) (err : PyError)
    (h : processFnCont e = .error err) : err = .badLine (curLine e) := by
  unfold processFnCont at h
  split at h
  · exact Except.noConfusion h
  · split at h
    · exact Except.noConfusion h
    · injection h with h1
      exact h1.symm

theorem processMacroCont_ok_fields (e e' : Extractor) (b : Bool)
    (h : processMacroCont e = .ok (e', b)) :
    e'.sectionName = e.sectionName ∧ e'.lines = e.lines ∧
      (e'.state = e.state ∨ e'.state = e.state ||| DOC) ∧ e'.doc = e.doc := by
  unfold processMacroCont at h
  split at h
  · injection h with h1
    injection h1 with h2 h3
    subst h2
    exact ⟨rfl, rfl, Or.inl rfl, rfl⟩
  · split at h
    · injection h with h1
      injection h1 with h2 h3
      subst h2
      exact ⟨rfl, rfl, Or.inr rfl, rfl⟩
    · exact Except.noConfusion h

theorem processMacroCont_error_shape (e : Extractor) (err : PyError)
    (h : processMacroCont e = .error err) : err = .badLine (curLine e) := by
  unfold processMacroCont at h
  split at h
  · exact Except.noConfusion h
  · split at h
    · exact Except.noConfusion h
    · injection h with h1
      exact h1.symm

theorem processSection_ok_fields (e e' : Extractor) (b : Bool)
    (h : processSection e = .ok (e', b)) :
    e'.sectionName = e.sectionName ∧ e'.lines = e.lines ∧
      e'.state = 0 ∧ e'.doc = [] := by
  unfold processSection at h
  split at h
  · exact Except.noConfusion h
  · rename_i e1 heq
    obtain ⟨hst, hsig, hdoc, hsec, hlin, hi, hcon⟩ :=
      add_declaration_ok_fields e e1 heq
    by_cases hfn : e1.functions = []
    · rw [if_pos hfn] at h
      injection h with h1
      injection h1 with h2 h3
      subst h2
      exact ⟨hsec, hlin, hst, hdoc⟩
    · rw [if_neg hfn] at h
      injection h with h1
      injection h1 with h2 h3
      subst h2
      exact ⟨(update_section_fields e1).2.2.1.trans hsec,
        (update_section_fields e1).2.2.2.1.trans hlin,
        (update_section_fields e1).1.trans hst,
        (update_section_fields e1).2.1.trans hdoc⟩

theorem processSection_error_shape (e : Extractor) (err : PyError)
    (h : processSection e = .error err) : ∃ s, err = .missingParen s := by
  unfold processSection at h
  split at h
  · rename_i err1 heq
    injection h with h1
    subst h1
    exact add_declaration_error_shape e _ heq
  · exact Except.noConfusion h

theorem processFallback_ok_fields (e e' : Extractor) (b : Bool)
    (h : processFallback e = .ok (e', b)) :
    e'.sectionName = e.sectionName ∧ e'.lines = e.lines ∧
      e'.state = 0 ∧ e'.doc = [] := by
  unfold processFallback at h
  split at h
  · exact Except.noConfusion h
  · rename_i e1 heq
    injection h with h1
    injection h1 with h2 h3
    subst h2
    obtain ⟨hst, hsig, hdoc, hsec, hlin, hi, hcon⟩ :=
      add_declaration_ok_fields e e1 heq
    exact ⟨hsec, hlin, hst, hdoc⟩

theorem processFallback_error_shape (e : Extractor) (err : PyError)
    (h : processFallback e = .error err) : ∃ s, err = .missingParen s := by
  unfold processFallback at h
  split at h
  · rename_i err1 heq
    injection h with h1
    subst h1
    exact add_declaration_error_shape e _ heq
  · exact Except.noConfusion h

theorem process_line_ok_fields (e e' : Extractor) (b : Bool)
    (h : process_line e = .ok (e', b)) :
    e'.sectionName = e.sectionName ∧ e'.lines = e.lines ∧
      (e'.state = 0 ∨ e'.state = 2 ∨ e'.state = 3 ∨ e'.state = 4 ∨
        e'.state = 5 ∨ e'.state = 8 ∨ e'.state = e.state) ∧
      (e'.doc = [] ∨ e'.doc = e.doc ∨ ∃ l, l ≠ [] ∧ e'.doc = e.doc ++ [l]) := by
  unfold process_line at h
  split at h
  · injection h with h1
    injection h1 with h2 h3
    subst h2
    exact ⟨rfl, rfl, Or.inr (Or.inr (Or.inr (Or.inr (Or.inr (Or.inr rfl))))),
      Or.inr (Or.inl rfl)⟩
  · split at h
    · exact Except.noConfusion h
    · split at h
      · obtain ⟨h1, h2, h3, h4⟩ := processFn_ok_fields e e' b h
        exact ⟨h1, h2, Or.inr (Or.inl h3), Or.inl h4⟩
      · split at h
        · obtain ⟨h1, h2, h3, h4⟩ := processMacro_ok_fields e e' b h
          exact ⟨h1, h2, Or.inr (Or.inr (Or.inr (Or.inl h3))), Or.inl h4⟩
        · split at h
          · obtain ⟨h1, h2, h3, h4⟩ := processType_ok_fields e e' b h
            exact ⟨h1, h2, Or.inr (Or.inr (Or.inr (Or.inr (Or.inr (Or.inl h3))))),
              Or.inl h4⟩
          · split at h
            · rename_i hfn
              obtain ⟨h1, h2, h3, h4⟩ := processFnCont_ok_fields e e' b h
              refine ⟨h1, h2, ?_, Or.inr (Or.inl h4)⟩
              rcases h3 with h3 | h3
              · exact Or.inr (Or.inr (Or.inr (Or.inr (Or.inr (Or.inr h3)))))
              · refine Or.inr (Or.inr (Or.inl ?_))
                rw [h3, hfn]
                decide
            · split at h
              · rename_i hmc
                obtain ⟨h1, h2, h3, h4⟩ := processMacroCont_ok_fields e e' b h
                refine ⟨h1, h2, ?_, Or.inr (Or.inl h4)⟩
                rcases h3 with h3 | h3
                · exact Or.inr (Or.inr (Or.inr (Or.inr (Or.inr (Or.inr h3)))))
                · refine Or.inr (Or.inr (Or.inr (Or.inr (Or.inl ?_))))
                  rw [h3, hmc]
                  decide
              · split at h
                · injection h with h1
                  injection h1 with h2 h3
                  subst h2
                  refine ⟨rfl, rfl,
                    Or.inr (Or.inr (Or.inr (Or.inr (Or.inr (Or.inr rfl))))), ?_⟩
                  by_cases hstrip : strip (curLine e) = []
                  · refine Or.inr (Or.inl ?_)
                    show e.doc ++ sigFragment (strip (curLine e)) = e.doc
                    simp [sigFragment, hstrip]
                  · refine Or.inr (Or.inr ⟨strip (curLine e), hstrip, ?_⟩)
                    show e.doc ++ sigFragment (strip (curLine e))
                        = e.doc ++ [strip (curLine e)]
                    simp [sigFragment, hstrip]
                · split at h
                  · obtain ⟨h1, h2, h3, h4⟩ := processSection_ok_fields e e' b h
                    exact ⟨h1, h2, Or.inl h3, Or.inl h4⟩
                  · split at h
                    · injection h with h1
                      injection h1 with h2 h3
                      subst h2
                      exact ⟨rfl, rfl,
                        Or.inr (Or.inr (Or.inr (Or.inr (Or.inr (Or.inr rfl))))),
                        Or.inr (Or.inl rfl)⟩
                    · obtain ⟨h1, h2, h3, h4⟩ := processFallback_ok_fields e e' b h
                      exact ⟨h1, h2, Or.inl h3, Or.inl h4⟩

/-- A raised desynchronization error implies the desynchronized state:
every other branch of `process_line` raises a different exception. -/
theorem process_line_desync (e : Extractor) (s i : Nat)
    (h : process_line e = .error (.stateDesync s i)) :
    1 < primaryCount e.state := by
  unfold process_line at h
  split at h
  · exact Except.noConfusion h
  · split at h
    · rename_i hpc
      exact hpc
    · split at h
      · rcases processFn_error_shape e _ h with h1 | ⟨t, h1⟩ <;> cases h1
      · split at h
        · rcases processMacro_error_shape e _ h with h1 | ⟨t, h1⟩ <;> cases h1
        · split at h
          · obtain ⟨t, h1⟩ := processType_error_shape e _ h
            cases h1
          · split at h
            · cases processFnCont_error_shape e _ h
            · split at h
              · cases processMacroCont_error_shape e _ h
              · split at h
                · exact Except.noConfusion h
                · split at h
                  · obtain ⟨t, h1⟩ := processSection_error_shape e _ h
                    cases h1
                  · split at h
                    · exact Except.noConfusion h
                    · obtain ⟨t, h1⟩ := processFallback_error_shape e _ h
                      cases h1

/-! ### Reachability and the state invariant -/


theorem stateOK_primaryCount (s : Nat) (h : stateOK s) : primaryCount s ≤ 1 := by
  rcases h with rfl | rfl | rfl | rfl | rfl | rfl <;> decide

theorem process_line_stateOK (e e' : Extractor) (b : Bool)
    (h : process_line e = .ok (e', b)) (hs : stateOK e.state) :
    stateOK e'.state := by
  obtain ⟨-, -, hstate, -⟩ := process_line_ok_fields e e' b h
  rcases hstate with h' | h' | h' | h' | h' | h' | h'
  · exact Or.inl h'
  · exact Or.inr (Or.inl h')
  · exact Or.inr (Or.inr (Or.inl h'))
  · exact Or.inr (Or.inr (Or.inr (Or.inl h')))
  · exact Or.inr (Or.inr (Or.inr (Or.inr (Or.inl h'))))
  · exact Or.inr (Or.inr (Or.inr (Or.inr (Or.inr h'))))
  · exact h' ▸ hs

theorem process_line_docOK (e e' : Extractor) (b : Bool)
    (h : process_line e = .ok (e', b)) (hd : ∀ d ∈ e.doc, d ≠ []) :
    ∀ d ∈ e'.doc, d ≠ [] := by
  obtain ⟨-, -, -, hdoc⟩ := process_line_ok_fields e e' b h
  rcases hdoc with h' | h' | ⟨l, hl, h'⟩
  · rw [h']; intro d hd'; cases hd'
  · rw [h']; exact hd
  · rw [h']
    intro d hdm
    rcases List.mem_append.mp hdm with hm | hm
    · exact hd d hm
    · rw [List.mem_singleton.mp hm]; exact hl

/-- Any property preserved by successful steps holds at every reachable
extractor state once it holds initially. -/
theorem iterN_invariant (P : Extractor → Prop)
    (hstep : ∀ e e' b, P e → process_line e = .ok (e', b) → P e') :
    ∀ (n : Nat) (e0 e : Extractor), P e0 → iterN n e0 = .ok e → P e := by
  intro n
  induction n with
  | zero =>
    intro e0 e h0 hit
    cases hit
    exact h0
  | succ m ih =>
    intro e0 e h0 hit
    unfold iterN at hit
    split at hit
    · exact Except.noConfusion hit
    · rename_i e1 heq
      injection hit with h1
      rw [h1] at heq
      exact hstep e0 e false h0 heq
    · rename_i e1 heq
      exact ih e1 e (hstep e0 e1 true h0 heq) hit

theorem reachable_stateOK (lines : List Chars) (e : Extractor)
    (h : Reachable lines e) : stateOK e.state := by
  obtain ⟨n, hn⟩ := h
  exact iterN_invariant (fun x => stateOK x.state)
    (fun a a' b ha hstep => process_line_stateOK a a' b hstep ha)
    n (initExtractor lines) e (Or.inl rfl) hn

theorem reachable_docOK (lines : List Chars) (e : Extractor)
    (h : Reachable lines e) : ∀ d ∈ e.doc, d ≠ [] := by
  obtain ⟨n, hn⟩ := h
  exact iterN_invariant (fun x => ∀ d ∈ x.doc, d ≠ [])
    (fun a a' b ha hstep => process_line_docOK a a' b hstep ha)
    n (initExtractor lines) e (by intro d hd; cases hd) hn

theorem reachable_sectionName (lines : List Chars) (e : Extractor)
    (h : Reachable lines e) : e.sectionName = none := by
  obtain ⟨n, hn⟩ := h
  exact iterN_invariant (fun x => x.sectionName = none)
    (fun a a' b ha hstep => ((process_line_ok_fields a a' b hstep).1).trans ha)
    n (initExtractor lines) e rfl hn

/-! ### Small helper lemmas for computing single steps -/

theorem isPrefixOf_false_of_head_ne (a b : Char) (p l : Chars) (hne : ¬ a = b) :
    (a :: p).isPrefixOf (b :: l) = false := by
  have hb : (a == b) = false := by
    cases hab : a == b
    · rfl
    · exact absurd (eq_of_beq hab) hne
  simp [List.isPrefixOf, hb]

theorem docIndent_head (line : Chars) (h : docIndent.isPrefixOf line = true) :
    ∃ rest, line = ' ' :: rest := by
  cases line with
  | nil => simp [docIndent, List.isPrefixOf] at h
  | cons a rest =>
    refine ⟨rest, ?_⟩
    simp only [docIndent, List.isPrefixOf, Bool.and_eq_true, beq_iff_eq] at h
    rw [h.1]

theorem markers_not_prefix_of_space (line rest : Chars) (hline : line = ' ' :: rest) :
    fnMarker.isPrefixOf line = false ∧ macroMarker.isPrefixOf line = false ∧
      typeMarker.isPrefixOf line = false := by
  subst hline
  unfold fnMarker macroMarker typeMarker
  exact ⟨isPrefixOf_false_of_head_ne '.' ' ' _ _ (by decide),
    isPrefixOf_false_of_head_ne '.' ' ' _ _ (by decide),
    isPrefixOf_false_of_head_ne '.' ' ' _ _ (by decide)⟩

theorem filterSigs_warn_vaList :
    ∀ (l sigs : List Chars) (ws : List Warning),
      filterSigs l = .ok (sigs, ws) → ∀ w ∈ ws, ∃ t, w = .vaList t := by
  intro l
  induction l with
  | nil =>
    intro sigs ws h w hw
    injection h with h1
    injection h1 with h2 h3
    rw [← h3] at hw
    cases hw
  | cons a rest ih =>
    intro sigs ws h w hw
    unfold filterSigs at h
    split at h
    · exact Except.noConfusion h
    · split at h
      · split at h
        · exact Except.noConfusion h
        · rename_i s2 w2 heq
          injection h with h1
          injection h1 with h2 h3
          rw [← h3] at hw
          rcases List.mem_cons.mp hw with rfl | hmem
          · exact ⟨a, rfl⟩
          · exact ih s2 w2 heq w hmem
      · split at h
        · exact Except.noConfusion h
        · rename_i s2 w2 heq
          injection h with h1
          injection h1 with h2 h3
          rw [← h3] at hw
          exact ih s2 w2 heq w hw

theorem runFinish_of_add_function (e e1 : Extractor)
    (hstate : e.state &&& FUNCTION_DECLARATION ≠ 0)
    (hadd : add_function e = .ok e1) (hne : e1.functions ≠ []) :
    runFinish e = .ok { update_section e1 with state := NONE } := by
  unfold runFinish
  rw [if_pos hstate, hadd]
  show Except.ok ({ (if e1.functions = [] then e1 else update_section e1)
      with state := NONE } : Extractor) = _
  rw [if_neg hne]

theorem runExtractor_of_loop (lines : List Chars) (e : Extractor)
    (hloop : runLoop (lines.length + 1) (initExtractor lines) = .ok e) :
    runExtractor (initExtractor lines) = runFinish e := by
  unfold runExtractor
  have hl : (initExtractor lines).lines = lines := rfl
  rw [hl, hloop]

/-! ### The claims -/

/-- Claim C1, counterexample: on the spec's test input the claim as stated
is false — the result's no-section entry is as claimed, but no section
named `Bar` is present at all (the `Bar` underline has only three dashes,
below the four-dash threshold the parser tests, and the parser's section
attribute is never updated), so the conjunction evaluates to false. -/
theorem C1_counterexample : c1ClaimHolds = false := by decide

/-- Claim C1, amended: on the spec's test input the extraction result is
exactly one entry, keyed by the no-section sentinel, holding one Function
declaration with normalized signature `int foo(int input)` and
documentation `Returns something.`; no `Bar` key appears and the macro is
recognized but emitted nowhere. -/
theorem C1_theorem :
    extractContent c1lines
      = .ok [(none, [(["int foo(int input)".data],
                      ["Returns something.".data])])] := by rfl

/-- Claim C2, counterexample: on an input whose first line `Sec` is
underlined by dashes, a following declaration is not keyed under `Sec`
in the extraction result — the section name is never updated, so the
claim's keying requirement evaluates to false. -/
theorem C2_counterexample : c2ClaimHolds = false := by decide

/-- Claim C2, amended: on a line whose successor starts with at least four
dashes (reached outside the marker, continuation and documentation
branches), the extractor finalizes any pending declaration, flushes the
accumulated declarations into the result keyed by the current (previous)
section name, and consumes both lines — but it leaves the active section
name unchanged (the source's header assignment binds a local variable),
and indeed the section name is `none` in every reachable state. -/
theorem C2_theorem (e e1 : Extractor)
    (h1 : e.i < e.lines.length)
    (h2 : primaryCount e.state ≤ 1)
    (h3 : fnMarker.isPrefixOf (curLine e) = false)
    (h4 : macroMarker.isPrefixOf (curLine e) = false)
    (h5 : typeMarker.isPrefixOf (curLine e) = false)
    (h6 : e.state ≠ FUNCTION_DECLARATION)
    (h7 : e.state ≠ MACRO_DECLARATION)
    (h8 : ¬(e.state &&& DOC ≠ 0 ∧ docIndent.isPrefixOf (curLine e) = true))
    (h9 : e.i + 1 < e.lines.length)
    (h10 : dashes4.isPrefixOf (e.lines.getD (e.i + 1) []) = true)
    (hadd : add_declaration e = .ok e1) :
    process_line e
        = .ok ({ (if e1.functions = [] then e1 else update_section e1)
                 with i := e.i + 2 }, true)
      ∧ (if e1.functions = [] then e1 else update_section e1).sectionName
          = e.sectionName
      ∧ (update_section e1).content
          = contentAdd e.content e.sectionName e1.functions
      ∧ (∀ lns ex, Reachable lns ex → ex.sectionName = none) := by
  obtain ⟨hst, hsig, hdoc, hsec, hlin, hi, hcon⟩ :=
    add_declaration_ok_fields e e1 hadd
  refine ⟨?_, ?_, ?_, fun lns ex hr => reachable_sectionName lns ex hr⟩
  · unfold process_line
    rw [if_neg (Nat.not_le.mpr h1), if_neg (Nat.not_lt.mpr h2),
      if_neg (by simp [h3]), if_neg (by simp [h4]), if_neg (by simp [h5]),
      if_neg h6, if_neg h7, if_neg h8, if_pos ⟨h9, h10⟩]
    unfold processSection
    simp only [hadd]
  · split
    · exact hsec
    · exact (update_section_fields e1).2.2.1.trans hsec
  · rw [(update_section_fields e1).2.2.2.2.2.2, hcon, hsec]

/-- Claim C2, witness: the step theorem applied to a concrete mid-run
state sitting on a dash-underlined header with one pending declaration. -/
theorem C2_witness :
    process_line c2we
        = .ok ({ (if c2we.functions = [] then c2we else update_section c2we)
                 with i := c2we.i + 2 }, true)
      ∧ (if c2we.functions = [] then c2we else update_section c2we).sectionName
          = c2we.sectionName
      ∧ (update_section c2we).content
          = contentAdd c2we.content c2we.sectionName c2we.functions
      ∧ (∀ lns ex, Reachable lns ex → ex.sectionName = none) :=
  C2_theorem c2we c2we (by decide) (by decide) (by decide) (by decide)
    (by decide) (by decide) (by decide) (by decide) (by decide) (by decide) rfl

/-- Claim C3, counterexample: a declaration whose sole signature is
variadic is not entirely absent from the result for its section — the
va_list warning is logged and the signature is dropped, but an entry with
an empty signature list and the declaration's documentation is still
emitted, so the claim evaluates to false. -/
theorem C3_counterexample : c3ClaimHolds = false := by decide

/-- Claim C3, amended: at finalization every signature fragment containing
`va_list ` is dropped before any rewriting, with one warning per dropped
fragment, and the declaration's entry — the surviving fragments
(normalized) together with the cleaned documentation — is still appended,
possibly with an empty signature list. -/
theorem C3_theorem (e : Extractor)
    (h : ∀ s ∈ e.signatures,
        containsSub s ['('] = true ∧ containsSub s [')'] = true) :
    add_function e = .ok { e with
      doc := clean_doc e.doc,
      signatures := clean_signatures e.state
        (e.signatures.filter (fun s => !containsSub s vaMarker)),
      warnings := e.warnings ++
        (e.signatures.filter (fun s => containsSub s vaMarker)).map Warning.vaList,
      functions := e.functions ++
        [(clean_signatures e.state
            (e.signatures.filter (fun s => !containsSub s vaMarker)),
          clean_doc e.doc)] } :=
  add_function_of_filterSigs e _ _ (filterSigs_ok e.signatures h)

/-- Claim C3, witness: finalizing a declaration with one variadic and one
ordinary fragment drops exactly the variadic one, logs its warning, and
still emits the entry. -/
theorem C3_witness :
    add_function c3we = .ok { c3we with
      doc := ["d".data],
      signatures := ["int g(int y)".data],
      warnings := [.vaList "void f(va_list x)".data],
      functions := [(["int g(int y)".data], ["d".data])] } := by
  rw [C3_theorem c3we (by decide)]
  rfl

/-- Claim C4: a pending signature that lacks an opening or closing
parenthesis after the textual cleanups makes `add_function` raise the
fatal structural error (the cleanups neither create nor destroy
parentheses, so the source's pre-cleanup check is equivalent); when the
declaration is being finalized the error propagates through
`add_declaration`, the end-of-run finalization, and the whole run, so the
signature is never silently emitted. -/
theorem C4_theorem (e : Extractor) (s : Chars) (hs : s ∈ e.signatures)
    (h : containsSub (cleanSignature s) ['('] = false ∨
         containsSub (cleanSignature s) [')'] = false) :
    (∃ s', add_function e = .error (.missingParen s'))
    ∧ (e.state &&& FUNCTION_DECLARATION ≠ 0 →
        (∃ s', add_declaration e = .error (.missingParen s'))
        ∧ (∃ s', runFinish e = .error (.missingParen s'))
        ∧ ∀ lns, runLoop (lns.length + 1) (initExtractor lns) = .ok e →
            ∃ s', runExtractor (initExtractor lns)
              = .error (.missingParen s')) := by
  have hpre : containsSub s ['('] = false ∨ containsSub s [')'] = false := by
    rcases h with h | h
    · exact Or.inl (containsSub_cleanSignature_paren '(' (Or.inl rfl) s h)
    · exact Or.inr (containsSub_cleanSignature_paren ')' (Or.inr rfl) s h)
  obtain ⟨s', hfs⟩ := filterSigs_error e.signatures s hs hpre
  have hadd : add_function e = .error (.missingParen s') := by
    unfold add_function
    rw [hfs]
  refine ⟨⟨s', hadd⟩, fun hstate => ?_⟩
  have haddd : add_declaration e = .error (.missingParen s') := by
    unfold add_declaration
    rw [if_pos hstate, hadd]
  have hfin : runFinish e = .error (.missingParen s') := by
    unfold runFinish
    rw [if_pos hstate, hadd]
  exact ⟨⟨s', haddd⟩, ⟨s', hfin⟩,
    fun lns hloop => ⟨s', by rw [runExtractor_of_loop lns e hloop]; exact hfin⟩⟩

/-- Claim C4, witness: the parenless signature `int foo`, open at end of
input, makes the finalization and the whole run fail fatally. -/
theorem C4_witness :
    (∃ s', add_function c4we = .error (.missingParen s'))
    ∧ (c4we.state &&& FUNCTION_DECLARATION ≠ 0 →
        (∃ s', add_declaration c4we = .error (.missingParen s'))
        ∧ (∃ s', runFinish c4we = .error (.missingParen s'))
        ∧ ∀ lns, runLoop (lns.length + 1) (initExtractor lns) = .ok c4we →
            ∃ s', runExtractor (initExtractor lns)
              = .error (.missingParen s')) :=
  C4_theorem c4we "int foo".data (by decide) (Or.inl (by decide))

/-- Claim C5, counterexample: the run on `.. function:: int foo(int in)`
renames the reserved parameter (`int foo(int input)` appears in the
result) yet the warning list of the run is empty, so the claim's
"every actual substitution emits a warning" evaluates to false. -/
theorem C5_counterexample : c5ClaimHolds = false := by decide

/-- Claim C5, amended: the reserved-name renaming applies only to whole
parameter tokens (a reserved name occurring without the space/star prefix
and comma/paren suffix — in particular as a substring of a longer
identifier — leaves the signature unchanged), the substitution is
performed (`int foo(int in)` normalizes to `int foo(int input)`), but the
current extractor performs it silently: the finalization emits only
va_list warnings.  The warning citing both the original and the
replacement text exists only in the historical variant's cleanup, which
does emit it whenever a reserved form is present. -/
theorem C5_theorem :
    (∀ s : Chars, (∀ pr ∈ argReplacements, containsSub s pr.1 = false) →
        foldReplace argReplacements s = s)
    ∧ cleanSignature "int foo(int in)".data = "int foo(int input)".data
    ∧ (∀ (l sigs : List Chars) (ws : List Warning),
        filterSigs l = .ok (sigs, ws) → ∀ w ∈ ws, ∃ t, w = .vaList t)
    ∧ (∀ s : Chars, oldHasBad (oldTypeClean s) = true →
        oldProcessSig s = (oldRename (oldTypeClean s),
          [.invalidName (oldTypeClean s) (oldRename (oldTypeClean s))])) := by
  refine ⟨?_, by decide, filterSigs_warn_vaList, ?_⟩
  · intro s hnone
    exact foldReplace_of_not_contains argReplacements s hnone
  · intro s h
    simp [oldProcessSig, h]

/-- Claim C5, witness: `in` inside the longer identifiers `min` and
`index` is left untouched, and the historical variant's cleanup warns,
citing before and after, on a signature with a reserved form. -/
theorem C5_witness :
    foldReplace argReplacements "int min(int index)".data
      = "int min(int index)".data
    ∧ oldProcessSig "void g(slong in)".data
        = (oldRename (oldTypeClean "void g(slong in)".data),
           [.invalidName (oldTypeClean "void g(slong in)".data)
             (oldRename (oldTypeClean "void g(slong in)".data))]) :=
  ⟨C5_theorem.1 "int min(int index)".data (by decide),
   C5_theorem.2.2.2 "void g(slong in)".data (by decide)⟩

/-- Claim C6: a line that is exactly `.. function::` (or `.. macro::`)
with nothing after it makes the run abort with an IndexError — the
missing-space check reads the character right after the marker before
testing that it exists, contradicting the warn-and-continue policy the
spec prescribes for a missing space. -/
theorem C6_theorem :
    runExtractor (initExtractor [".. function::".data]) = .error .indexError
    ∧ runExtractor (initExtractor [".. macro::".data]) = .error .indexError :=
  ⟨rfl, rfl⟩

/-- Claim C7: in every parser state reachable from the initial state, at
most one primary state flag is set, and the desynchronization check at the
top of `process_line` can never fire. -/
theorem C7_theorem (lines : List Chars) (e : Extractor) (h : Reachable lines e) :
    primaryCount e.state ≤ 1
    ∧ ∀ s i, process_line e ≠ .error (.stateDesync s i) := by
  have hok := reachable_stateOK lines e h
  refine ⟨stateOK_primaryCount _ hok, fun s i hcon => ?_⟩
  have h1 := process_line_desync e s i hcon
  have h2 := stateOK_primaryCount _ hok
  omega

/-- Claim C7, witness: the invariant instantiated at the initial state. -/
theorem C7_witness :
    primaryCount (initExtractor []).state ≤ 1
    ∧ ∀ s i, process_line (initExtractor []) ≠ .error (.stateDesync s i) :=
  C7_theorem [] (initExtractor []) ⟨0, rfl⟩

/-- Claim C8, counterexample: documentation with an interior blank line
(`a`, blank, `b`) is finalized as two entries with no empty entry between
them — blank lines are skipped, not recorded — so the claim's "interior
blank lines survive as empty documentation entries" evaluates to false. -/
theorem C8_counterexample : c8ClaimHolds = false := by decide

/-- Claim C8, amended: while the Doc flag is set a line indented by at
least four columns is stripped and appended exactly when non-empty; a
blank line inside documentation is skipped without recording an empty
entry; consequently the documentation buffer never holds an empty entry in
any reachable state, and the trailing-empty trim at finalization is
vacuous — the finalized documentation is the stripped lines with the
escaped-macro cleanup applied. -/
theorem C8_theorem :
    (∀ e : Extractor, (e.state = 3 ∨ e.state = 5) → e.i < e.lines.length →
        docIndent.isPrefixOf (curLine e) = true →
        process_line e
            = .ok ({ e with doc := e.doc ++ sigFragment (strip (curLine e)),
                            i := e.i + 1 }, true)
          ∧ (strip (curLine e) ≠ [] →
              e.doc ++ sigFragment (strip (curLine e))
                = e.doc ++ [strip (curLine e)])
          ∧ (strip (curLine e) = [] →
              e.doc ++ sigFragment (strip (curLine e)) = e.doc))
    ∧ (∀ e : Extractor, (e.state = 3 ∨ e.state = 5) → e.i < e.lines.length →
        curLine e = [] →
        ¬(e.i + 1 < e.lines.length ∧
            dashes4.isPrefixOf (e.lines.getD (e.i + 1) []) = true) →
        process_line e = .ok ({ e with i := e.i + 1 }, true))
    ∧ (∀ lns ex, Reachable lns ex → ∀ d ∈ ex.doc, d ≠ [])
    ∧ (∀ doc : List Chars, (∀ d ∈ doc, d ≠ []) →
        clean_doc doc = doc.map chooseFix) := by
  refine ⟨?_, ?_, fun lns ex hr => reachable_docOK lns ex hr, ?_⟩
  · intro e hstate hi hpre
    obtain ⟨rest, hline⟩ := docIndent_head (curLine e) hpre
    obtain ⟨hm1, hm2, hm3⟩ := markers_not_prefix_of_space (curLine e) rest hline
    have h6 : e.state ≠ FUNCTION_DECLARATION := by
      rcases hstate with hst | hst <;> rw [hst] <;> decide
    have h7 : e.state ≠ MACRO_DECLARATION := by
      rcases hstate with hst | hst <;> rw [hst] <;> decide
    have hpc : ¬(1 < primaryCount e.state) := by
      rcases hstate with hst | hst <;> rw [hst] <;> decide
    have hdf : e.state &&& DOC ≠ 0 := by
      rcases hstate with hst | hst <;> rw [hst] <;> decide
    refine ⟨?_, fun hne => by simp [sigFragment, hne],
      fun he => by simp [sigFragment, he]⟩
    unfold process_line
    rw [if_neg (Nat.not_le.mpr hi), if_neg hpc,
      if_neg (by simp [hm1]), if_neg (by simp [hm2]), if_neg (by simp [hm3]),
      if_neg h6, if_neg h7, if_pos ⟨hdf, hpre⟩]
  · intro e hstate hi hblank hnsec
    have hm1 : fnMarker.isPrefixOf (curLine e) = false := by
      rw [hblank]; decide
    have hm2 : macroMarker.isPrefixOf (curLine e) = false := by
      rw [hblank]; decide
    have hm3 : typeMarker.isPrefixOf (curLine e) = false := by
      rw [hblank]; decide
    have h6 : e.state ≠ FUNCTION_DECLARATION := by
      rcases hstate with hst | hst <;> rw [hst] <;> decide
    have h7 : e.state ≠ MACRO_DECLARATION := by
      rcases hstate with hst | hst <;> rw [hst] <;> decide
    have hpc : ¬(1 < primaryCount e.state) := by
      rcases hstate with hst | hst <;> rw [hst] <;> decide
    have hdc : ¬(e.state &&& DOC ≠ 0 ∧ docIndent.isPrefixOf (curLine e) = true) := by
      intro hc
      rw [hblank] at hc
      exact absurd hc.2 (by decide)
    unfold process_line
    rw [if_neg (Nat.not_le.mpr hi), if_neg hpc,
      if_neg (by simp [hm1]), if_neg (by simp [hm2]), if_neg (by simp [hm3]),
      if_neg h6, if_neg h7, if_neg hdc, if_neg hnsec, if_pos hblank]
  · intro doc hd
    have hdw : doc.reverse.dropWhile List.isEmpty = doc.reverse := by
      cases hrev : doc.reverse with
      | nil => rfl
      | cons a t =>
        have ha : a ∈ doc := by
          rw [← List.mem_reverse, hrev]
          exact List.mem_cons_self a t
        have hne : a.isEmpty = false := by
          cases hai : a.isEmpty
          · rfl
          · exact absurd (List.isEmpty_iff.mp hai) (hd a ha)
        simp [List.dropWhile, hne]
    unfold clean_doc
    rw [hdw, List.reverse_reverse]

/-- Claim C8, witness: the documentation step applied to a concrete state
with the Doc flag set and the indented line `    b` as current line. -/
theorem C8_witness :
    process_line c8we
        = .ok ({ c8we with doc := c8we.doc ++ sigFragment (strip (curLine c8we)),
                           i := c8we.i + 1 }, true)
      ∧ (strip (curLine c8we) ≠ [] →
          c8we.doc ++ sigFragment (strip (curLine c8we))
            = c8we.doc ++ [strip (curLine c8we)])
      ∧ (strip (curLine c8we) = [] →
          c8we.doc ++ sigFragment (strip (curLine c8we)) = c8we.doc) :=
  C8_theorem.1 c8we (Or.inl rfl) (by decide) (by decide)

/-- Claim C9: when the loop ends at end of input with a function
declaration still open (the Doc flag possibly set) and its pending
fragments structurally valid, the run's finalization still appends the
declaration — normalized fragments plus cleaned documentation — as the
last entry of the result list for the current section; it is not
dropped. -/
theorem C9_theorem (lines : List Chars) (e : Extractor)
    (hloop : runLoop (lines.length + 1) (initExtractor lines) = .ok e)
    (hstate : e.state &&& FUNCTION_DECLARATION ≠ 0)
    (hsigs : ∀ s ∈ e.signatures,
        containsSub s ['('] = true ∧ containsSub s [')'] = true) :
    ∃ e' l, runExtractor (initExtractor lines) = .ok e'
      ∧ contentFind e'.content e.sectionName = some l
      ∧ l.getLast? = some
          (clean_signatures e.state
            (e.signatures.filter (fun s => !containsSub s vaMarker)),
           clean_doc e.doc) := by
  obtain ⟨e1, hadd, hfun, hsec, hcon⟩ :
      ∃ e1, add_function e = .ok e1
        ∧ e1.functions = e.functions ++
            [(clean_signatures e.state
                (e.signatures.filter (fun s => !containsSub s vaMarker)),
              clean_doc e.doc)]
        ∧ e1.sectionName = e.sectionName ∧ e1.content = e.content :=
    ⟨_, add_function_of_filterSigs e _ _ (filterSigs_ok e.signatures hsigs),
      rfl, rfl, rfl⟩
  have hne : e1.functions ≠ [] := by
    rw [hfun]
    simp
  refine ⟨{ update_section e1 with state := NONE },
    (contentFind e1.content e1.sectionName).getD [] ++ e1.functions,
    (runExtractor_of_loop lines e hloop).trans
      (runFinish_of_add_function e e1 hstate hadd hne), ?_, ?_⟩
  · show contentFind (update_section e1).content e.sectionName = _
    rw [← hsec, (update_section_fields e1).2.2.2.2.2.2]
    exact contentFind_contentAdd e1.content e1.sectionName e1.functions
  · rw [hfun, ← List.append_assoc, List.getLast?_concat]

/-- Claim C9, witness: an input that ends while `void f(x)` is still being
accumulated still produces the declaration in the result. -/
theorem C9_witness :
    ∃ e' l, runExtractor (initExtractor c9lines) = .ok e'
      ∧ contentFind e'.content c9we.sectionName = some l
      ∧ l.getLast? = some
          (clean_signatures c9we.state
            (c9we.signatures.filter (fun s => !containsSub s vaMarker)),
           clean_doc c9we.doc) :=
  C9_theorem c9lines c9we rfl (by decide) (by decide)

/-- Claim C10: a filename not ending in `.rst` makes the constructor raise
ValueError before the input text is even consulted — the outcome is the
same error for every possible file content, and `extract_functions`
propagates it, so no partial extraction result exists. -/
theorem C10_theorem (filename text : Chars)
    (h : (".rst".data.isSuffixOf filename) = false) :
    extractorInit filename text = .error .badFilename
    ∧ extract_functions filename text = .error .badFilename := by
  have h1 : extractorInit filename text = .error .badFilename := by
    unfold extractorInit
    rw [h]
    rfl
  refine ⟨h1, ?_⟩
  unfold extract_functions
  rw [h1]

/-- Claim C10, witness: the constructor check applied to `foo.txt`. -/
theorem C10_witness :
    extractorInit "foo.txt".data "x".data = .error .badFilename
    ∧ extract_functions "foo.txt".data "x".data = .error .badFilename :=
  C10_theorem "foo.txt".data "x".data (by decide)

end FlintAutogen
